import Mathlib

/-!
Verification of the progress-and-consistency engine of the LMS backend.

The definitions below are a shallow embedding of the TypeScript sources:

* src/models/Progress.ts        — progress snapshot state machine
  (initializeForCourse, updateLectureProgress, getNextUnlockedLecture,
  isLectureUnlocked);
* the module model (moduleSchema: calculateLectureStats, pre/post save
  hooks) and src/models/Course.ts (calculateStats);
* the module service (ModuleService.reorderModules,
  ModuleService.duplicateModule) together with the controller guard that
  rejects an empty id list.

Mongo documents become Lean structures, object ids become Nat, dates
become Nat timestamps passed explicitly, and each mutating method becomes
a pure function threading an explicit store or progress record.
-/

namespace Lms

/-- Entry of lectureProgressSchema: one lecture inside a progress snapshot. -/
structure LectureProgress where
  lectureId : Nat
  completedAt : Option Nat := none
  watchTime : Nat := 0
  isCompleted : Bool := false
deriving Repr, DecidableEq

/-- Entry of moduleProgressSchema: one module inside a progress snapshot. -/
structure ModuleProgress where
  moduleId : Nat
  lectures : List LectureProgress
  completedLectures : Nat := 0
  totalLectures : Nat := 0
  isCompleted : Bool := false
  completedAt : Option Nat := none
deriving Repr, DecidableEq

/-- Document of progressSchema, keyed by (userId, courseId). -/
structure Progress where
  userId : Nat
  courseId : Nat
  modules : List ModuleProgress
  completedModules : Nat
  totalModules : Nat
  completedLectures : Nat
  totalLectures : Nat
  progressPercentage : Nat
  isCompleted : Bool
  completedAt : Option Nat
  lastAccessedAt : Nat
deriving Repr, DecidableEq

/-- Document of moduleSchema. -/
structure ModuleDoc where
  id : Nat
  courseId : Nat
  title : String
  moduleNumber : Nat
  isActive : Bool := true
  lectureCount : Nat := 0
  totalDuration : Nat := 0
deriving Repr, DecidableEq

/-- Document of lectureSchema. -/
structure LectureDoc where
  id : Nat
  moduleId : Nat
  courseId : Nat
  title : String
  videoUrl : String
  duration : Nat
  lectureNumber : Nat
  isActive : Bool := true
deriving Repr, DecidableEq

/-- Document of courseSchema (the fields the engine reads or writes). -/
structure CourseDoc where
  id : Nat
  title : String
  isActive : Bool := true
  totalModules : Nat := 0
  totalLectures : Nat := 0
  totalDuration : Nat := 0
deriving Repr, DecidableEq

/-- Persistent content store: the Course, Module and Lecture collections. -/
structure Store where
  courses : List CourseDoc
  modules : List ModuleDoc
  lectures : List LectureDoc
deriving Repr, DecidableEq

/-- Progress.initializeForCourse (Progress.ts lines 123-179): builds the
nested snapshot from the active modules (ordered by moduleNumber) and the
active lectures (ordered by lectureNumber) handed back by the store, with
every lecture unwatched and incomplete, and zeroed derived counters.
The two lists are the query results of the two find calls. -/
def initializeForCourse (userId courseId : Nat) (modules : List ModuleDoc)
    (lectures : List LectureDoc) (now : Nat) : Progress :=
  { userId := userId
    courseId := courseId
    modules := modules.map (fun md =>
      let moduleLectures := lectures.filter (fun l => l.moduleId == md.id)
      { moduleId := md.id
        lectures := moduleLectures.map (fun l =>
          { lectureId := l.id, completedAt := none, watchTime := 0, isCompleted := false })
        completedLectures := 0
        totalLectures := moduleLectures.length
        isCompleted := false
        completedAt := none })
    completedModules := 0
    totalModules := modules.length
    completedLectures := 0
    totalLectures := (modules.map (fun md =>
      (lectures.filter (fun l => l.moduleId == md.id)).length)).sum
    progressPercentage := 0
    isCompleted := false
    completedAt := none
    lastAccessedAt := now }

/-- Error raised by Progress.updateLectureProgress. -/
inductive ProgressError where
  | lectureNotFound
deriving Repr, DecidableEq

/-- Step of updateLectureProgress that applies the optional watchTime
argument (Progress.ts lines 208-210). -/
def applyWatch (l : LectureProgress) : Option Nat → LectureProgress
  | some w => { l with watchTime := w }
  | none => l

/-- Step of updateLectureProgress that applies the optional isCompleted
argument, setting completedAt on a transition to true when unset and
clearing it on a transition to false (Progress.ts lines 212-219). -/
def applyCompleted (now : Nat) (l : LectureProgress) : Option Bool → LectureProgress
  | some true =>
      { l with isCompleted := true
               completedAt := match l.completedAt with
                 | none => some now
                 | some d => some d }
  | some false => { l with isCompleted := false, completedAt := none }
  | none => l

/-- Update of the first lecture entry with the given id inside one module
(findIndex over module.lectures followed by the field updates). The
surrounding caller only invokes this when the id is present, matching the
code where the inner findIndex cannot miss once the module-level some
succeeded. -/
def updateLectureInList (lectureId : Nat) (w : Option Nat) (ic : Option Bool)
    (now : Nat) : List LectureProgress → List LectureProgress
  | [] => []
  | l :: rest =>
    if l.lectureId = lectureId then
      applyCompleted now (applyWatch l w) ic :: rest
    else
      l :: updateLectureInList lectureId w ic now rest

/-- Recalculation of the module-level derived fields after a lecture entry
changed (Progress.ts lines 221-230). -/
def recomputeModule (now : Nat) (m : ModuleProgress)
    (newLectures : List LectureProgress) : ModuleProgress :=
  let completed := (newLectures.filter (fun l => l.isCompleted)).length
  let isC : Bool := completed == m.totalLectures
  { m with
    lectures := newLectures
    completedLectures := completed
    isCompleted := isC
    completedAt := if isC then
        (match m.completedAt with
          | none => some now
          | some d => some d)
      else none }

/-- Module scan of updateLectureProgress: the first module whose lecture
list contains the id is updated, every other module is left alone; none
when no module contains the id (findIndex returning -1). -/
def updateModulesList (lectureId : Nat) (w : Option Nat) (ic : Option Bool)
    (now : Nat) : List ModuleProgress → Option (List ModuleProgress)
  | [] => none
  | m :: rest =>
    if m.lectures.any (fun l => l.lectureId == lectureId) then
      some (recomputeModule now m (updateLectureInList lectureId w ic now m.lectures) :: rest)
    else
      match updateModulesList lectureId w ic now rest with
      | none => none
      | some rest' => some (m :: rest')

/-- Percentage computation of Progress.ts line 237,
Math.round((completedLectures / totalLectures) * 100), expressed over Nat:
for t > 0 this is the half-up rounding of 100*c/t. -/
def jsRoundPct (c t : Nat) : Nat := (200 * c + t) / (2 * t)

/-- Progress.updateLectureProgress (Progress.ts lines 182-251): locates
the lecture in the snapshot, fails when absent, otherwise applies the
given fields, recomputes the module-level and progress-level derived
fields, and stamps lastAccessedAt. Returns the error (if any) paired with
the record after the call; on error the record is the unchanged input. -/
def updateLectureProgress (p : Progress) (lectureId : Nat) (w : Option Nat)
    (ic : Option Bool) (now : Nat) : Option ProgressError × Progress :=
  match updateModulesList lectureId w ic now p.modules with
  | none => (some .lectureNotFound, p)
  | some modules' =>
    let completedLectures := (modules'.map (fun m => m.completedLectures)).sum
    let completedModules := (modules'.filter (fun m => m.isCompleted)).length
    let pct := if 0 < p.totalLectures then jsRoundPct completedLectures p.totalLectures else 0
    let isC : Bool := completedModules == p.totalModules
    (none,
     { p with
       modules := modules'
       completedLectures := completedLectures
       completedModules := completedModules
       progressPercentage := pct
       isCompleted := isC
       completedAt := if isC then
           (match p.completedAt with
             | none => some now
             | some d => some d)
         else none
       lastAccessedAt := now })

/-- Inner loop of getNextUnlockedLecture over one module's lectures
(Progress.ts lines 256-273). The prev argument carries the previously
visited lecture of the module, mirroring the index i: prev is none exactly
when i = 0. -/
def nextUnlockedInLectures (prev : Option LectureProgress) :
    List LectureProgress → Option Nat
  | [] => none
  | l :: rest =>
    if l.isCompleted then
      nextUnlockedInLectures (some l) rest
    else
      match prev with
      | none => some l.lectureId
      | some pl => if pl.isCompleted then some l.lectureId else some pl.lectureId

/-- Outer loop of getNextUnlockedLecture over the snapshot modules. -/
def nextUnlockedInModules : List ModuleProgress → Option Nat
  | [] => none
  | m :: rest =>
    match nextUnlockedInLectures none m.lectures with
    | some lid => some lid
    | none => nextUnlockedInModules rest

/-- Progress.getNextUnlockedLecture (Progress.ts lines 254-277). -/
def getNextUnlockedLecture (p : Progress) : Option Nat :=
  nextUnlockedInModules p.modules

/-- Inner loop of isLectureUnlocked over one module (Progress.ts lines
287-299): once the queried lecture is found at index i, the code scans
indices j = 0..i of the same module for the next-unlocked id. The nuSeen
accumulator records whether the next-unlocked id occurred among the
already visited lectures of this module. -/
def unlockedInLectures (lectureId nu : Nat) (nuSeen : Bool) :
    List LectureProgress → Option Bool
  | [] => none
  | l :: rest =>
    let seen := nuSeen || (l.lectureId == nu)
    if l.lectureId = lectureId then
      some (seen || l.isCompleted)
    else
      unlockedInLectures lectureId nu seen rest

/-- Module scan of isLectureUnlocked: the first module containing the
queried lecture decides; false when no module contains it. -/
def unlockedInModules (lectureId nu : Nat) : List ModuleProgress → Bool
  | [] => false
  | m :: rest =>
    match unlockedInLectures lectureId nu false m.lectures with
    | some b => b
    | none => unlockedInModules lectureId nu rest

/-- Progress.isLectureUnlocked (Progress.ts lines 280-303). -/
def isLectureUnlocked (p : Progress) (lectureId : Nat) : Bool :=
  match getNextUnlockedLecture p with
  | none => true
  | some nu => unlockedInModules lectureId nu p.modules

/-- Flattened lecture sequence of a snapshot: modules in order, lectures in
order within each module. -/
def flatLectures (p : Progress) : List LectureProgress :=
  p.modules.flatMap (fun m => m.lectures)

/-- Specification-level next-unlocked lecture: the id of the first lecture
with isCompleted = false in flattened snapshot order, none when every
lecture is completed. -/
def firstIncompleteId (p : Progress) : Option Nat :=
  ((flatLectures p).find? (fun l => !l.isCompleted)).map (fun l => l.lectureId)

/-- Progress states reachable from an initializeForCourse snapshot by any
sequence of successful updateLectureProgress calls. -/
inductive Reachable : Progress → Prop where
  | init (userId courseId : Nat) (modules : List ModuleDoc)
      (lectures : List LectureDoc) (now : Nat) :
      Reachable (initializeForCourse userId courseId modules lectures now)
  | step {p p' : Progress} (lectureId : Nat) (w : Option Nat) (ic : Option Bool)
      (now : Nat) :
      Reachable p →
      updateLectureProgress p lectureId w ic now = (none, p') →
      Reachable p'

/-- Sequential-completion predicate over a lecture sequence: every
completed lecture is preceded only by completed lectures, i.e. the
completed entries form the front segment of the sequence. -/
def seqCompletedOk : List LectureProgress → Bool
  | [] => true
  | l :: rest =>
    if l.isCompleted then seqCompletedOk rest
    else rest.all (fun x => !x.isCompleted)

/-- Errors raised by the module service and its controller, together with
the duplicate-key error the storage layer raises when a write would
violate the unique (courseId, moduleNumber) index. -/
inductive SvcError where
  | courseNotFound
  | moduleNotFound
  | modulesNotInCourse
  | emptyModuleIds
  | duplicateKey
deriving Repr, DecidableEq

/-- Classification of the service errors that the error taxonomy calls
validation errors: a foreign-entity mismatch or an empty id set, both
mapped to HTTP 400 by the controller. -/
def SvcError.isValidationError : SvcError → Bool
  | .modulesNotInCourse => true
  | .emptyModuleIds => true
  | _ => false

/-- Module.findByIdAndUpdate(id, moduleNumber := n, new := true) under
the unique (courseId, moduleNumber) index declared on the module schema
(module model line 53): the write is rejected with a duplicate-key error
when another module of the same course already holds the number;
otherwise the number is written and the updated document returned, none
when no document has the id (then nothing is written). -/
def setModuleNumber (s : Store) (mid n : Nat) :
    Except SvcError (Store × Option ModuleDoc) :=
  match s.modules.find? (fun m => m.id == mid) with
  | none => .ok (s, none)
  | some target =>
    if s.modules.any (fun m =>
        !(m.id == mid) && m.courseId == target.courseId && m.moduleNumber == n) then
      .error .duplicateKey
    else
      let modules' := s.modules.map (fun m =>
        if m.id = mid then { m with moduleNumber := n } else m)
      .ok ({ s with modules := modules' }, modules'.find? (fun m => m.id == mid))

/-- Update loop of ModuleService.reorderModules (lines 154-164): the i-th
id in the list receives moduleNumber i+1; missing ids are skipped in the
returned array; a duplicate-key rejection aborts the loop, leaving the
writes of the earlier iterations committed. The counter k is the number
of ids already processed; the returned store is the state after the
writes that happened. -/
def reorderLoop : Store → List Nat → Nat → Except SvcError (List ModuleDoc) × Store
  | s, [], _ => (.ok [], s)
  | s, mid :: rest, k =>
    match setModuleNumber s mid (k + 1) with
    | .error e => (.error e, s)
    | .ok r1 =>
      match reorderLoop r1.1 rest (k + 1) with
      | (.error e, t) => (.error e, t)
      | (.ok ms', t) =>
        (.ok (match r1.2 with
          | some m => m :: ms'
          | none => ms'), t)

/-- ModuleService.reorderModules (module service lines 133-170): verifies
the course exists and that every given id is a module of that course (by
comparing the count of matching documents with the length of the id
list), then renumbers sequentially. Returns the outcome paired with the
store after the call. -/
def reorderModules (s : Store) (courseId : Nat) (moduleIds : List Nat) :
    Except SvcError (List ModuleDoc) × Store :=
  match s.courses.find? (fun c => c.id == courseId) with
  | none => (.error .courseNotFound, s)
  | some _ =>
    let matching := s.modules.filter (fun m =>
      moduleIds.contains m.id && m.courseId == courseId)
    if matching.length = moduleIds.length then
      reorderLoop s moduleIds 0
    else
      (.error .modulesNotInCourse, s)

/-- ModuleController.reorderModules guard (controller lines 150-155) in
front of the service call: an empty id array is rejected with HTTP 400
before the service runs. -/
def reorderModulesEndpoint (s : Store) (courseId : Nat) (moduleIds : List Nat) :
    Except SvcError (List ModuleDoc) × Store :=
  if moduleIds.isEmpty then (.error .emptyModuleIds, s)
  else reorderModules s courseId moduleIds

/-- Aggregate of moduleSchema.calculateLectureStats (module model lines
110-132): count and total duration of the active lectures of a module. -/
def moduleStats (s : Store) (mid : Nat) : Nat × Nat :=
  let ls := s.lectures.filter (fun l => l.moduleId == mid && l.isActive)
  (ls.length, (ls.map (fun l => l.duration)).sum)

/-- Write-back of the module stats onto the stored module document. -/
def applyModuleStats (s : Store) (mid : Nat) : Store :=
  let st := moduleStats s mid
  { s with modules := s.modules.map (fun m =>
      if m.id = mid then { m with lectureCount := st.1, totalDuration := st.2 } else m) }

/-- Aggregate of courseSchema.calculateStats (Course.ts lines 118-151):
the count of active modules and the count and total duration of the
active lectures of a course. -/
def courseStats (s : Store) (cid : Nat) : Nat × Nat × Nat :=
  let tm := (s.modules.filter (fun m => m.courseId == cid && m.isActive)).length
  let ls := s.lectures.filter (fun l => l.courseId == cid && l.isActive)
  (tm, ls.length, (ls.map (fun l => l.duration)).sum)

/-- Write-back of the course stats onto the stored course document. -/
def applyCourseStats (s : Store) (cid : Nat) : Store :=
  let st := courseStats s cid
  { s with courses := s.courses.map (fun c =>
      if c.id = cid then
        { c with totalModules := st.1, totalLectures := st.2.1, totalDuration := st.2.2 }
      else c) }

/-- Model of moduleSchema.calculateLectureStats on a fetched module
document: recompute from the active lectures, save the module (whose
post-save hook recomputes the owning course's stats), and return the
stats. This is the RecomputeModuleStats operation of the spec. -/
def calculateLectureStats (s : Store) (m : ModuleDoc) : (Nat × Nat) × Store :=
  let st := moduleStats s m.id
  let s₁ := applyModuleStats s m.id
  let s₂ := applyCourseStats s₁ m.courseId
  (st, s₂)

/-- Model of courseSchema.calculateStats on a fetched course document:
recompute from the active modules and lectures, save the course, and
return the stats. This is the RecomputeCourseStats operation of the
spec. -/
def calculateStats (s : Store) (c : CourseDoc) : (Nat × Nat × Nat) × Store :=
  (courseStats s c.id, applyCourseStats s c.id)

/-- Number assigned by the lectureSchema pre-save hook (Progress.ts
lecture schema lines 400-415) when a lecture is saved without a
lectureNumber: one past the highest existing lectureNumber in the target
module, 1 when the module has no lectures. -/
def nextLectureNumber (s : Store) (mid : Nat) : Nat :=
  ((s.lectures.filter (fun l => l.moduleId == mid)).map
    (fun l => l.lectureNumber)).foldr max 0 + 1

/-- Save of one duplicated lecture inside ModuleService.duplicateModule
(lines 199-211): the copy keeps title, videoUrl, duration, courseId and
isActive, omits lectureNumber so the pre-save hook numbers it, and the
post-save hooks recompute the new module's stats and then the course
stats. The accumulator carries the store and the fresh id for the next
copy. -/
def saveDuplicatedLecture (newMid cid : Nat) (acc : Store × Nat)
    (l : LectureDoc) : Store × Nat :=
  let s := acc.1
  let num := nextLectureNumber s newMid
  let newLec : LectureDoc :=
    { id := acc.2, moduleId := newMid, courseId := l.courseId, title := l.title,
      videoUrl := l.videoUrl, duration := l.duration, lectureNumber := num,
      isActive := l.isActive }
  let s₁ := { s with lectures := s.lectures ++ [newLec] }
  let s₂ := applyModuleStats s₁ newMid
  let s₃ := applyCourseStats s₂ cid
  (s₃, acc.2 + 1)

/-- ModuleService.duplicateModule (module service lines 172-223): copies
the module under a fresh id with title suffix " (Copy)" at moduleNumber
one past the course maximum, then saves a copy of every lecture of the
source module (the find carries no isActive filter), and finally
recomputes the course stats. newModuleId and lecIdBase supply the fresh
object ids minted by the store. -/
def duplicateModule (s : Store) (mid newModuleId lecIdBase : Nat) :
    Except SvcError ModuleDoc × Store :=
  match s.modules.find? (fun m => m.id == mid) with
  | none => (.error .moduleNotFound, s)
  | some orig =>
    let maxNum := ((s.modules.filter (fun m => m.courseId == orig.courseId)).map
      (fun m => m.moduleNumber)).foldr max 0
    let newMod : ModuleDoc :=
      { id := newModuleId, courseId := orig.courseId,
        title := orig.title ++ " (Copy)", moduleNumber := maxNum + 1,
        isActive := orig.isActive, lectureCount := 0, totalDuration := 0 }
    let s₁ := { s with modules := s.modules ++ [newMod] }
    let s₂ := applyCourseStats s₁ orig.courseId
    let originalLectures := s₂.lectures.filter (fun l => l.moduleId == mid)
    let r := originalLectures.foldl (saveDuplicatedLecture newModuleId orig.courseId)
      (s₂, lecIdBase)
    let s₄ := applyCourseStats r.1 orig.courseId
    (.ok newMod, s₄)

/-! Concrete fixtures used by counterexamples and witnesses. -/

/-- Course content with one module holding two lectures. -/
def lmsModules : List ModuleDoc :=
  [{ id := 1, courseId := 10, title := "M1", moduleNumber := 1 }]

/-- The two lectures of the fixture module. -/
def lmsLectures : List LectureDoc :=
  [{ id := 101, moduleId := 1, courseId := 10, title := "L1", videoUrl := "u1",
     duration := 10, lectureNumber := 1 },
   { id := 102, moduleId := 1, courseId := 10, title := "L2", videoUrl := "u2",
     duration := 10, lectureNumber := 2 }]

/-- Fresh progress snapshot of user 7 on course 10. -/
def lmsP0 : Progress := initializeForCourse 7 10 lmsModules lmsLectures 0

/-- State after marking the second lecture completed while the first one
is still incomplete. -/
def lmsP1 : Progress := (updateLectureProgress lmsP0 102 none (some true) 1).2

/-- Store with one course owning two modules numbered 1 and 2. -/
def exStore : Store :=
  { courses := [{ id := 10, title := "C" }]
    modules := [{ id := 1, courseId := 10, title := "A", moduleNumber := 1 },
                { id := 2, courseId := 10, title := "B", moduleNumber := 2 }]
    lectures := [] }

/-- Store whose single module holds one inactive lecture. -/
def dupStore : Store :=
  { courses := [{ id := 20, title := "D" }]
    modules := [{ id := 1, courseId := 20, title := "M", moduleNumber := 1 }]
    lectures := [{ id := 5, moduleId := 1, courseId := 20, title := "L",
                   videoUrl := "u", duration := 10, lectureNumber := 1,
                   isActive := false }] }

/-- Store whose single module holds two active lectures numbered 1, 2. -/
def dupStore2 : Store :=
  { courses := [{ id := 20, title := "D" }]
    modules := [{ id := 1, courseId := 20, title := "M", moduleNumber := 3 }]
    lectures := [{ id := 5, moduleId := 1, courseId := 20, title := "La",
                   videoUrl := "ua", duration := 10, lectureNumber := 1 },
                 { id := 6, moduleId := 1, courseId := 20, title := "Lb",
                   videoUrl := "ub", duration := 20, lectureNumber := 2 }] }

/-- Position of the first lecture with the given id in a lecture list. -/
def lectureIdxIn (lid : Nat) : List LectureProgress → Option Nat
  | [] => none
  | l :: rest =>
    if l.lectureId = lid then some 0 else (lectureIdxIn lid rest).map (· + 1)

/-- Index-level description of the isLectureUnlocked inner loop on one
module: once the queried lecture sits at index i, the result is true when
the next-unlocked id occurs among the first i+1 lectures of this module,
and otherwise the queried lecture's own isCompleted flag. -/
def unlockedSpecInModule (lid nu : Nat) (ls : List LectureProgress) : Option Bool :=
  match lectureIdxIn lid ls with
  | none => none
  | some i =>
    some ((ls.take (i + 1)).any (fun l => l.lectureId == nu)
      || (ls[i]?.map (fun l => l.isCompleted)).getD false)

/-- Module scan of the index-level description. -/
def unlockedSpecInModules (lid nu : Nat) : List ModuleProgress → Bool
  | [] => false
  | m :: rest =>
    match unlockedSpecInModule lid nu m.lectures with
    | some b => b
    | none => unlockedSpecInModules lid nu rest

/-- Index-level description of isLectureUnlocked: true when everything is
completed; otherwise decided inside the module containing the queried
lecture by comparing module-local positions against the next-unlocked
lecture; false when the queried id is absent from the snapshot. -/
def isLectureUnlockedSpec (p : Progress) (lid : Nat) : Bool :=
  match getNextUnlockedLecture p with
  | none => true
  | some nu => unlockedSpecInModules lid nu p.modules

lemma contains_eq_mem (l : List Nat) (a : Nat) : l.contains a = decide (a ∈ l) :=
  List.elem_eq_mem a l

lemma ids_map_setNum (s : Store) (mid n : Nat) :
    ((s.modules.map (fun m =>
        if m.id = mid then { m with moduleNumber := n } else m)).map
      (fun m => m.id)) = s.modules.map (fun m => m.id) := by
  rw [List.map_map]
  apply List.map_congr_left
  intro m _
  by_cases h : m.id = mid <;> simp [Function.comp, h]

lemma setModuleNumber_ok_elim (s : Store) (mid n : Nat) (target : ModuleDoc)
    (r : Store × Option ModuleDoc)
    (hfind : s.modules.find? (fun m => m.id == mid) = some target)
    (hok : setModuleNumber s mid n = .ok r) :
    (s.modules.any (fun m =>
        !(m.id == mid) && m.courseId == target.courseId && m.moduleNumber == n)) = false ∧
    r.1 = { s with modules := s.modules.map (fun m =>
        if m.id = mid then { m with moduleNumber := n } else m) } := by
  unfold setModuleNumber at hok
  rw [hfind] at hok
  cases hany : s.modules.any (fun m =>
      !(m.id == mid) && m.courseId == target.courseId && m.moduleNumber == n) with
  | true => simp [hany] at hok
  | false =>
    refine ⟨rfl, ?_⟩
    simp only [hany, Bool.false_eq_true, if_false, Except.ok.injEq] at hok
    rw [← hok]

lemma reorderEndpoint_ok_elim (s : Store) (cid : Nat) (mids : List Nat)
    (ms : List ModuleDoc) (s' : Store)
    (h : reorderModulesEndpoint s cid mids = (.ok ms, s')) :
    (s.modules.filter (fun m =>
      mids.contains m.id && m.courseId == cid)).length = mids.length ∧
    reorderLoop s mids 0 = (.ok ms, s') := by
  rw [reorderModulesEndpoint] at h
  by_cases he : mids.isEmpty
  · rw [if_pos he] at h; simp at h
  · rw [if_neg he] at h
    unfold reorderModules at h
    cases hf : s.courses.find? (fun c => c.id == cid) with
    | none => rw [hf] at h; simp at h
    | some c =>
      rw [hf] at h
      by_cases hl : (s.modules.filter (fun m =>
          mids.contains m.id && m.courseId == cid)).length = mids.length
      · rw [if_pos hl] at h
        exact ⟨hl, h⟩
      · rw [if_neg hl] at h; simp at h

lemma reorderLoop_ok (cid : Nat) : ∀ (mids : List Nat) (s : Store) (k : Nat)
    (ms : List ModuleDoc) (s' : Store),
    mids.Nodup →
    (s.modules.map (fun m => m.id)).Nodup →
    (∀ mid ∈ mids, ∃ m ∈ s.modules, m.id = mid ∧ m.courseId = cid) →
    reorderLoop s mids k = (.ok ms, s') →
    s'.modules = s.modules.map (fun m =>
        if mids.contains m.id then { m with moduleNumber := k + mids.indexOf m.id + 1 }
        else m) ∧
    ∀ u ∈ s.modules, u.id ∉ mids → u.courseId = cid →
      ¬(k + 1 ≤ u.moduleNumber ∧ u.moduleNumber ≤ k + mids.length) := by
  intro mids
  induction mids with
  | nil =>
    intro s k ms s' _ _ _ hok
    simp only [reorderLoop, Prod.mk.injEq] at hok
    constructor
    · rw [← hok.2]
      show s.modules = _
      simp [contains_eq_mem]
    · intro u _ _ _
      simp only [List.length_nil]
      omega
  | cons mid rest ih =>
    intro s k ms s' hnd hids hex hok
    obtain ⟨hnotin, hndrest⟩ := List.nodup_cons.mp hnd
    obtain ⟨m₀, hm₀mem, hm₀id, hm₀cid⟩ := hex mid (List.mem_cons_self _ _)
    obtain ⟨target, hfind⟩ : ∃ target,
        s.modules.find? (fun m => m.id == mid) = some target :=
      Option.isSome_iff_exists.mp
        (List.find?_isSome.mpr ⟨m₀, hm₀mem, by simp [hm₀id]⟩)
    have htmem : target ∈ s.modules := List.mem_of_find?_eq_some hfind
    have htid : target.id = mid := by
      simpa [beq_iff_eq] using List.find?_some hfind
    have htarget_cid : target.courseId = cid := by
      have heqt : target = m₀ :=
        List.inj_on_of_nodup_map hids htmem hm₀mem (by rw [htid, hm₀id])
      rw [heqt, hm₀cid]
    cases hset : setModuleNumber s mid (k + 1) with
    | error e =>
      simp only [reorderLoop, hset] at hok
      exact absurd hok (by simp)
    | ok r1 =>
      obtain ⟨hany, hr1⟩ := setModuleNumber_ok_elim s mid (k + 1) target r1 hfind hset
      simp only [reorderLoop, hset] at hok
      rcases hrec : reorderLoop r1.1 rest (k + 1) with ⟨res, t⟩
      rw [hrec] at hok
      cases res with
      | error e => simp at hok
      | ok ms' =>
        have hts' : t = s' := by
          have := congrArg Prod.snd hok
          simpa using this
        have hmodsr1 : r1.1.modules = s.modules.map (fun m =>
            if m.id = mid then { m with moduleNumber := k + 1 } else m) := by
          rw [hr1]
        have hidsr1 : (r1.1.modules.map (fun m => m.id)).Nodup := by
          rw [hmodsr1, ids_map_setNum]
          exact hids
        have hexr1 : ∀ r ∈ rest, ∃ m ∈ r1.1.modules, m.id = r ∧ m.courseId = cid := by
          intro r hr
          obtain ⟨mr, hmrmem, hmrid, hmrcid⟩ := hex r (List.mem_cons_of_mem _ hr)
          refine ⟨(fun m => if m.id = mid then { m with moduleNumber := k + 1 } else m) mr,
            ?_, ?_, ?_⟩
          · rw [hmodsr1]
            exact List.mem_map.mpr ⟨mr, hmrmem, rfl⟩
          · show (if mr.id = mid then _ else mr).id = r
            by_cases h : mr.id = mid
            · rw [if_pos h]; exact hmrid
            · rw [if_neg h]; exact hmrid
          · show (if mr.id = mid then _ else mr).courseId = cid
            by_cases h : mr.id = mid
            · rw [if_pos h]; exact hmrcid
            · rw [if_neg h]; exact hmrcid
        obtain ⟨hmods', hnocol'⟩ := ih r1.1 (k + 1) ms' t hndrest hidsr1 hexr1 hrec
        constructor
        · rw [← hts', hmods', hmodsr1, List.map_map]
          apply List.map_congr_left
          intro m _
          simp only [Function.comp, contains_eq_mem]
          by_cases h1 : m.id = mid
          · simp only [if_pos h1]
            have hid2 : ({ m with moduleNumber := k + 1 } : ModuleDoc).id = m.id := rfl
            rw [hid2, h1]
            simp [hnotin, List.indexOf_cons_self]
          · simp only [if_neg h1]
            by_cases h2 : m.id ∈ rest
            · simp only [h2, decide_True]
              have hidx : List.indexOf m.id (mid :: rest) = (List.indexOf m.id rest).succ :=
                List.indexOf_cons_ne rest (fun h => h1 h.symm)
              rw [hidx]
              have harith : k + 1 + List.indexOf m.id rest + 1
                  = k + (List.indexOf m.id rest).succ + 1 := by
                omega
              simp [harith, h2]
            · have hno : ¬ (m.id ∈ mid :: rest) := by
                rw [List.mem_cons]
                rintro (h | h)
                · exact h1 h
                · exact h2 h
              simp [h2, hno]
        · intro u humem hunotin hucid
          have hune : u.id ≠ mid := fun h =>
            hunotin (by rw [h]; exact List.mem_cons_self _ _)
          have hunotrest : u.id ∉ rest := fun h => hunotin (List.mem_cons_of_mem _ h)
          rw [List.any_eq_false] at hany
          have h1 := hany u humem
          have hne1 : u.moduleNumber ≠ k + 1 := by
            intro hx
            apply h1
            simp [hune, htarget_cid, hucid, hx]
          have huimg : (fun m =>
              if m.id = mid then { m with moduleNumber := k + 1 } else m) u = u := by
            simp [hune]
          have humem' : u ∈ r1.1.modules := by
            rw [hmodsr1]
            refine List.mem_map.mpr ⟨u, humem, ?_⟩
            exact huimg
          have h2 := hnocol' u humem' hunotrest hucid
          intro hcon
          rcases hcon with ⟨hlo, hhi⟩
          simp only [List.length_cons] at hhi
          rcases Nat.eq_or_lt_of_le hlo with h | h
          · exact hne1 h.symm
          · exact h2 ⟨by omega, by omega⟩

lemma indexOf_map_self : ∀ (l : List Nat), l.Nodup →
    l.map (fun x => l.indexOf x) = List.range l.length := by
  intro l
  induction l with
  | nil => intro _; rfl
  | cons a t ih =>
    intro hnd
    obtain ⟨hna, hndt⟩ := List.nodup_cons.mp hnd
    rw [List.map_cons, List.indexOf_cons_self]
    have h1 : t.map (fun x => (a :: t).indexOf x) = t.map (fun x => (t.indexOf x) + 1) := by
      apply List.map_congr_left
      intro x hx
      have hne : a ≠ x := fun h => hna (h ▸ hx)
      rw [List.indexOf_cons_ne t hne]
    have h2 : t.map (fun x => t.indexOf x + 1)
        = (t.map (fun x => t.indexOf x)).map (fun n => n + 1) := by
      rw [List.map_map]; rfl
    rw [h1, h2, ih hndt]
    have h3 : (a :: t).length = t.length + 1 := rfl
    rw [h3, List.range_succ_eq_map]

lemma map_add_one_range (n : Nat) :
    (List.range n).map (fun x => x + 1) = List.range' 1 n := by
  rw [List.range'_eq_map_range]
  apply List.map_congr_left
  intro x _
  omega

lemma mapIdem {α : Type} (f : α → α) (hf : ∀ x, f (f x) = f x) (l : List α) :
    (l.map f).map f = l.map f := by
  rw [List.map_map]
  exact List.map_congr_left (fun x _ => hf x)

lemma updateLectureInList_marks (lid : Nat) (w : Option Nat) (now : Nat) :
    ∀ ls : List LectureProgress, (∃ l ∈ ls, l.lectureId = lid) →
      (updateLectureInList lid w (some true) now ls).any
        (fun l => l.lectureId == lid && l.isCompleted) = true := by
  intro ls
  induction ls with
  | nil => rintro ⟨l, hl, -⟩; exact absurd hl (List.not_mem_nil l)
  | cons l rest ih =>
    rintro ⟨l', hl', hle⟩
    by_cases h : l.lectureId = lid
    · simp only [updateLectureInList, if_pos h, List.any_cons]
      have h1 : (applyCompleted now (applyWatch l w) (some true)).lectureId
          = l.lectureId := by
        cases w <;> rfl
      have h2 : (applyCompleted now (applyWatch l w) (some true)).isCompleted
          = true := by
        cases w <;> rfl
      simp [h1, h2, h]
    · simp only [updateLectureInList, if_neg h, List.any_cons]
      have hrest : ∃ x ∈ rest, x.lectureId = lid := by
        rcases List.mem_cons.mp hl' with rfl | hmem
        · exact absurd hle h
        · exact ⟨l', hmem, hle⟩
      simp [ih hrest]

lemma updateModulesList_marks (lid : Nat) (w : Option Nat) (now : Nat) :
    ∀ ms : List ModuleProgress,
      (∃ m ∈ ms, ∃ l ∈ m.lectures, l.lectureId = lid) →
      ∃ ms', updateModulesList lid w (some true) now ms = some ms' ∧
        (ms'.flatMap (fun m => m.lectures)).any
          (fun l => l.lectureId == lid && l.isCompleted) = true := by
  intro ms
  induction ms with
  | nil => rintro ⟨m, hm, -⟩; exact absurd hm (List.not_mem_nil m)
  | cons m rest ih =>
    rintro ⟨m', hm', l, hl, hle⟩
    cases hany : m.lectures.any (fun l => l.lectureId == lid) with
    | true =>
      refine ⟨recomputeModule now m (updateLectureInList lid w (some true) now m.lectures)
        :: rest, ?_, ?_⟩
      · simp only [updateModulesList, hany, if_true]
      · rw [List.any_eq_true] at hany
        obtain ⟨l₀, hl₀, hl₀e⟩ := hany
        simp only [beq_iff_eq] at hl₀e
        rw [List.flatMap_cons, List.any_append]
        have : (recomputeModule now m
            (updateLectureInList lid w (some true) now m.lectures)).lectures
            = updateLectureInList lid w (some true) now m.lectures := rfl
        rw [this, updateLectureInList_marks lid w now m.lectures ⟨l₀, hl₀, hl₀e⟩]
        rfl
    | false =>
      have hrest : ∃ m₀ ∈ rest, ∃ l₀ ∈ m₀.lectures, l₀.lectureId = lid := by
        rcases List.mem_cons.mp hm' with rfl | hmem
        · rw [List.any_eq_false] at hany
          exact absurd (by simp [hle]) (hany l hl)
        · exact ⟨m', hmem, l, hl, hle⟩
      obtain ⟨rest', hrec, hmark⟩ := ih hrest
      refine ⟨m :: rest', ?_, ?_⟩
      · simp only [updateModulesList, hany, Bool.false_eq_true, if_false, hrec]
      · rw [List.flatMap_cons, List.any_append, hmark]
        simp

/-- Module array returned by the identity reorder of exStore's course. -/
def exReorderOkMs : List ModuleDoc :=
  [{ id := 1, courseId := 10, title := "A", moduleNumber := 1 },
   { id := 2, courseId := 10, title := "B", moduleNumber := 2 }]

/-- Projection of the lecture fields that DuplicateModule copies. -/
def lecProj (l : LectureDoc) : String × String × Nat × Nat × Bool :=
  (l.title, l.videoUrl, l.duration, l.lectureNumber, l.isActive)

/-- Shape of a lecture copy made by saveDuplicatedLecture. -/
def mkCopy (i newMid num : Nat) (l : LectureDoc) : LectureDoc :=
  { id := i, moduleId := newMid, courseId := l.courseId, title := l.title,
    videoUrl := l.videoUrl, duration := l.duration, lectureNumber := num,
    isActive := l.isActive }

/-- Module document created by duplicateModule for a given source. -/
def dupNewModule (s : Store) (orig : ModuleDoc) (newId : Nat) : ModuleDoc :=
  { id := newId, courseId := orig.courseId, title := orig.title ++ " (Copy)",
    moduleNumber := ((s.modules.filter (fun m => m.courseId == orig.courseId)).map
      (fun m => m.moduleNumber)).foldr max 0 + 1,
    isActive := orig.isActive, lectureCount := 0, totalDuration := 0 }

/-- Store state inside duplicateModule after the new module was saved,
before the lecture copies. -/
def dupMid (s : Store) (orig : ModuleDoc) (newId : Nat) : Store :=
  applyCourseStats { s with modules := s.modules ++ [dupNewModule s orig newId] }
    orig.courseId

/-- Source module document of dupStore2. -/
def dupOrig : ModuleDoc := { id := 1, courseId := 20, title := "M", moduleNumber := 3 }

/-! Supporting lemmas. -/

lemma nextUnlockedInLectures_eq_find (ls : List LectureProgress) :
    ∀ prev : Option LectureProgress,
      (∀ pl, prev = some pl → pl.isCompleted = true) →
      nextUnlockedInLectures prev ls
        = (ls.find? (fun l => !l.isCompleted)).map (fun l => l.lectureId) := by
  induction ls with
  | nil => intro prev _; rfl
  | cons l rest ih =>
    intro prev hprev
    cases hc : l.isCompleted with
    | true =>
      rw [List.find?_cons_of_neg _ (by simp [hc])]
      simp only [nextUnlockedInLectures, hc, if_true]
      exact ih (some l) (by intro pl hpl; cases hpl; exact hc)
    | false =>
      rw [List.find?_cons_of_pos _ (by simp [hc])]
      simp only [nextUnlockedInLectures, hc, Bool.false_eq_true, if_false]
      cases prev with
      | none => rfl
      | some pl => simp [hprev pl rfl]

lemma nextUnlockedInModules_eq_find (ms : List ModuleProgress) :
    nextUnlockedInModules ms
      = ((ms.flatMap (fun m => m.lectures)).find? (fun l => !l.isCompleted)).map
          (fun l => l.lectureId) := by
  induction ms with
  | nil => rfl
  | cons m rest ih =>
    rw [nextUnlockedInModules, List.flatMap_cons, List.find?_append,
      nextUnlockedInLectures_eq_find m.lectures none (by intro pl h; cases h)]
    cases h : m.lectures.find? (fun l => !l.isCompleted) with
    | some l => simp
    | none => simpa using ih

lemma updateModulesList_none_iff (lid : Nat) (w : Option Nat) (ic : Option Bool)
    (now : Nat) : ∀ ms : List ModuleProgress,
      updateModulesList lid w ic now ms = none
        ↔ ∀ m ∈ ms, ∀ l ∈ m.lectures, l.lectureId ≠ lid := by
  intro ms
  induction ms with
  | nil => simp [updateModulesList]
  | cons m rest ih =>
    cases hany : m.lectures.any (fun l => l.lectureId == lid) with
    | true =>
      have heq : updateModulesList lid w ic now (m :: rest)
          = some (recomputeModule now m
              (updateLectureInList lid w ic now m.lectures) :: rest) := by
        simp only [updateModulesList, hany, if_true]
      rw [heq]
      rw [List.any_eq_true] at hany
      obtain ⟨l, hl, hle⟩ := hany
      simp only [beq_iff_eq] at hle
      constructor
      · intro habs; exact absurd habs (by simp)
      · intro hall
        exact absurd hle (hall m (List.mem_cons_self m rest) l hl)
    | false =>
      have heq : updateModulesList lid w ic now (m :: rest)
          = match updateModulesList lid w ic now rest with
            | none => none
            | some rest' => some (m :: rest') := by
        simp only [updateModulesList, hany, Bool.false_eq_true, if_false]
      rw [List.any_eq_false] at hany
      cases hrec : updateModulesList lid w ic now rest with
      | none =>
        rw [heq, hrec]
        simp only [true_iff]
        intro m' hm'
        rcases List.mem_cons.mp hm' with rfl | hm'
        · intro l hl
          have := hany l hl
          simpa [beq_iff_eq] using this
        · exact (ih.mp hrec) m' hm'
      | some rest' =>
        rw [heq, hrec]
        constructor
        · intro habs; exact absurd habs (by simp)
        · intro hall
          have hrest : updateModulesList lid w ic now rest = none :=
            ih.mpr (fun m' hm' => hall m' (List.mem_cons_of_mem m hm'))
          rw [hrest] at hrec
          exact Option.noConfusion hrec

lemma updateModulesList_length (lid : Nat) (w : Option Nat) (ic : Option Bool)
    (now : Nat) : ∀ ms ms' : List ModuleProgress,
      updateModulesList lid w ic now ms = some ms' → ms'.length = ms.length := by
  intro ms
  induction ms with
  | nil => intro ms' h; exact absurd h (by simp [updateModulesList])
  | cons m rest ih =>
    intro ms' h
    cases hany : m.lectures.any (fun l => l.lectureId == lid) with
    | true =>
      simp only [updateModulesList, hany, if_true, Option.some.injEq] at h
      subst h; rfl
    | false =>
      simp only [updateModulesList, hany, Bool.false_eq_true, if_false] at h
      cases hrec : updateModulesList lid w ic now rest with
      | none => rw [hrec] at h; exact Option.noConfusion h
      | some rest' =>
        rw [hrec] at h
        simp only [Option.some.injEq] at h
        subst h
        simp [ih rest' hrec]

lemma reachable_totalModules {p : Progress} (h : Reachable p) :
    p.totalModules = p.modules.length := by
  induction h with
  | init userId courseId modules lectures now =>
    simp [initializeForCourse]
  | step lid w ic now hr heq ih =>
    rename_i q q'
    rw [updateLectureProgress] at heq
    cases hm : updateModulesList lid w ic now q.modules with
    | none => rw [hm] at heq; simp at heq
    | some ms' =>
      rw [hm] at heq
      simp only [Prod.mk.injEq] at heq
      rw [← heq.2]
      simpa [ih] using (updateModulesList_length lid w ic now q.modules ms' hm).symm

lemma jsRoundPct_eq_floor (c t : Nat) (ht : 0 < t) :
    (jsRoundPct c t : ℤ) = ⌊(c : ℚ) / (t : ℚ) * 100 + 1 / 2⌋ := by
  have htQ : (0:ℚ) < (t : ℚ) := by exact_mod_cast ht
  have hD : (0:ℚ) < ((2 * t : ℕ) : ℚ) := by push_cast; linarith
  have hx : (c : ℚ) / (t : ℚ) * 100 + 1 / 2
      = ((200 * c + t : ℕ) : ℚ) / ((2 * t : ℕ) : ℚ) := by
    push_cast
    field_simp
    ring
  rw [hx, eq_comm, Int.floor_eq_iff]
  constructor
  · rw [le_div_iff₀ hD]
    have hnat : jsRoundPct c t * (2 * t) ≤ 200 * c + t := Nat.div_mul_le_self _ _
    exact_mod_cast hnat
  · rw [div_lt_iff₀ hD]
    have h2t : 0 < 2 * t := by omega
    have hnat : 200 * c + t < (jsRoundPct c t + 1) * (2 * t) :=
      (Nat.div_lt_iff_lt_mul h2t).mp (Nat.lt_succ_self _)
    exact_mod_cast hnat

lemma unlockedInLectures_eq_spec (lid nu : Nat) :
    ∀ (ls : List LectureProgress) (b : Bool),
      unlockedInLectures lid nu b ls =
        match lectureIdxIn lid ls with
        | none => none
        | some i =>
          some ((b || (ls.take (i + 1)).any (fun l => l.lectureId == nu))
            || (ls[i]?.map (fun l => l.isCompleted)).getD false) := by
  intro ls
  induction ls with
  | nil => intro b; rfl
  | cons l rest ih =>
    intro b
    by_cases h : l.lectureId = lid
    · simp only [unlockedInLectures, lectureIdxIn, if_pos h]
      simp [Bool.or_assoc]
    · simp only [unlockedInLectures, lectureIdxIn, if_neg h, ih]
      cases hr : lectureIdxIn lid rest with
      | none => rfl
      | some i =>
        simp only [Option.map_some']
        rw [List.take_succ_cons]
        simp [Bool.or_assoc]

lemma unlockedInModules_eq_spec (lid nu : Nat) :
    ∀ ms : List ModuleProgress,
      unlockedInModules lid nu ms = unlockedSpecInModules lid nu ms := by
  intro ms
  induction ms with
  | nil => rfl
  | cons m rest ih =>
    rw [unlockedInModules, unlockedSpecInModules, unlockedSpecInModule,
      unlockedInLectures_eq_spec lid nu m.lectures false]
    cases hr : lectureIdxIn lid m.lectures with
    | none => simpa using ih
    | some i => simp

lemma le_foldrMax : ∀ (l : List Nat), ∀ x ∈ l, x ≤ l.foldr max 0 := by
  intro l
  induction l with
  | nil => intro x hx; exact absurd hx (List.not_mem_nil x)
  | cons a t ih =>
    intro x hx
    rw [List.foldr_cons]
    rcases List.mem_cons.mp hx with rfl | hx
    · exact le_max_left _ _
    · exact le_trans (ih x hx) (le_max_right _ _)

lemma foldrMax_mem : ∀ (l : List Nat), l ≠ [] → l.foldr max 0 ∈ l := by
  intro l
  induction l with
  | nil => intro h; exact absurd rfl h
  | cons a t ih =>
    intro _
    rw [List.foldr_cons]
    cases t with
    | nil => simp
    | cons b t' =>
      rcases le_total ((b :: t').foldr max 0) a with h | h
      · rw [max_eq_left h]; exact List.mem_cons_self _ _
      · rw [max_eq_right h]
        exact List.mem_cons_of_mem a (ih (by simp))

lemma foldrMax_range' : ∀ (n s : Nat),
    (List.range' (s + 1) n).foldr max 0 = if n = 0 then 0 else s + n := by
  intro n
  induction n with
  | zero => intro s; rfl
  | succ n ih =>
    intro s
    rw [List.range'_succ, List.foldr_cons, ih (s + 1)]
    cases n with
    | zero => simp
    | succ n' =>
      simp only [Nat.succ_ne_zero, if_false]
      rw [max_eq_right (by omega)]
      omega

lemma foldrMax_range_one (n : Nat) : (List.range' 1 n).foldr max 0 = n := by
  have h := foldrMax_range' n 0
  cases n with
  | zero => simp
  | succ n' => simpa using h

lemma dupFold (newMid cid : Nat) : ∀ (rs : List LectureDoc) (t : Store) (i n : Nat),
    (t.lectures.filter (fun l => l.moduleId == newMid)).map (fun l => l.lectureNumber)
      = List.range' 1 n →
    rs.map (fun l => l.lectureNumber) = List.range' (n + 1) rs.length →
    ((rs.foldl (saveDuplicatedLecture newMid cid) (t, i)).1.lectures.filter
        (fun l => l.moduleId == newMid)).map lecProj
      = (t.lectures.filter (fun l => l.moduleId == newMid)).map lecProj
        ++ rs.map lecProj := by
  intro rs
  induction rs with
  | nil => intro t i n h1 h2; simp
  | cons l rest ih =>
    intro t i n h1 h2
    rw [List.map_cons, List.length_cons, List.range'_succ] at h2
    have hl : l.lectureNumber = n + 1 := ((List.cons.injEq _ _ _ _).mp h2).1
    have hrest : rest.map (fun l => l.lectureNumber)
        = List.range' (n + 1 + 1) rest.length := ((List.cons.injEq _ _ _ _).mp h2).2
    have hnum : nextLectureNumber t newMid = n + 1 := by
      rw [nextLectureNumber, h1, foldrMax_range_one]
    have hlecs : ((saveDuplicatedLecture newMid cid (t, i) l).1).lectures
        = t.lectures ++ [mkCopy i newMid (nextLectureNumber t newMid) l] := rfl
    have hstep : ((l :: rest).foldl (saveDuplicatedLecture newMid cid) (t, i))
        = rest.foldl (saveDuplicatedLecture newMid cid)
            (saveDuplicatedLecture newMid cid (t, i) l) := rfl
    rw [hstep]
    have hsnd : saveDuplicatedLecture newMid cid (t, i) l
        = ((saveDuplicatedLecture newMid cid (t, i) l).1, i + 1) := rfl
    have h1' : (((saveDuplicatedLecture newMid cid (t, i) l).1).lectures.filter
          (fun l => l.moduleId == newMid)).map (fun l => l.lectureNumber)
        = List.range' 1 (n + 1) := by
      rw [hlecs, List.filter_append, List.map_append, h1, hnum]
      have hfil : List.filter (fun l => l.moduleId == newMid) [mkCopy i newMid (n + 1) l]
          = [mkCopy i newMid (n + 1) l] := by
        simp [mkCopy]
      rw [hfil, List.range'_concat]
      simp [mkCopy, Nat.add_comm]
    rw [hsnd] at h1'
    rw [hsnd, ih ((saveDuplicatedLecture newMid cid (t, i) l).1) (i + 1) (n + 1) h1' hrest]
    rw [hlecs, List.filter_append, List.map_append, hnum]
    have hfil : List.filter (fun l => l.moduleId == newMid) [mkCopy i newMid (n + 1) l]
        = [mkCopy i newMid (n + 1) l] := by
      simp [mkCopy]
    rw [hfil]
    have hproj : (List.map lecProj [mkCopy i newMid (n + 1) l]) = [lecProj l] := by
      simp [mkCopy, lecProj, hl]
    rw [hproj]
    simp

lemma duplicateModule_eq (s : Store) (mid newId base : Nat) (orig : ModuleDoc)
    (hfind : s.modules.find? (fun m => m.id == mid) = some orig) :
    duplicateModule s mid newId base
      = (.ok (dupNewModule s orig newId),
         applyCourseStats
           ((((dupMid s orig newId).lectures.filter
               (fun l => l.moduleId == mid)).foldl
             (saveDuplicatedLecture newId orig.courseId)
             (dupMid s orig newId, base)).1)
           orig.courseId) := by
  unfold duplicateModule
  rw [hfind]
  rfl

/-! Claim theorems. -/

/-- C10: getNextUnlockedLecture returns exactly the id of the first
lecture with isCompleted = false in flattened snapshot order (modules in
order, lectures in order within each module), and none when every lecture
is completed. In particular the branch returning the preceding lecture's
id is unreachable: the result is always the first incomplete lecture
itself. -/
theorem getNextUnlockedLecture_eq_firstIncomplete (p : Progress) :
    getNextUnlockedLecture p = firstIncompleteId p := by
  rw [getNextUnlockedLecture, firstIncompleteId, flatLectures]
  exact nextUnlockedInModules_eq_find p.modules

/-- C6: updateLectureProgress fails (with the lecture-not-found error) if
and only if the lecture id is absent from the snapshot, and a failing
call returns the progress record entirely unchanged. -/
theorem updateLectureProgress_notFound_iff (p : Progress) (lid : Nat)
    (w : Option Nat) (ic : Option Bool) (now : Nat) :
    ((updateLectureProgress p lid w ic now).1 = some .lectureNotFound
      ↔ ∀ l ∈ flatLectures p, l.lectureId ≠ lid) ∧
    ((updateLectureProgress p lid w ic now).1.isSome →
      (updateLectureProgress p lid w ic now).2 = p) := by
  cases hm : updateModulesList lid w ic now p.modules with
  | none =>
    have heq : updateLectureProgress p lid w ic now = (some .lectureNotFound, p) := by
      rw [updateLectureProgress, hm]
    rw [heq]
    refine ⟨?_, fun _ => rfl⟩
    simp only [true_iff]
    intro l hl
    rw [flatLectures, List.mem_flatMap] at hl
    obtain ⟨m, hmm, hlm⟩ := hl
    exact (updateModulesList_none_iff lid w ic now p.modules).mp hm m hmm l hlm
  | some ms' =>
    have hfst : (updateLectureProgress p lid w ic now).1 = none := by
      rw [updateLectureProgress, hm]
    rw [hfst]
    refine ⟨?_, by simp⟩
    constructor
    · intro habs; exact Option.noConfusion habs
    · intro hall
      have hmods : ∀ m ∈ p.modules, ∀ l ∈ m.lectures, l.lectureId ≠ lid := by
        intro m hmm l hlm
        exact hall l (by rw [flatLectures, List.mem_flatMap]; exact ⟨m, hmm, hlm⟩)
      have := (updateModulesList_none_iff lid w ic now p.modules).mpr hmods
      rw [this] at hm
      exact Option.noConfusion hm

/-- Witness for C6 on the concrete fixture: updating an id that is not in
the snapshot leaves the record unchanged. -/
theorem updateLectureProgress_notFound_iff_witness :
    (updateLectureProgress lmsP0 999 none none 5).2 = lmsP0 :=
  (updateLectureProgress_notFound_iff lmsP0 999 none none 5).2 (by decide)

/-- C3: after every successful updateLectureProgress call on a reachable
progress record, isCompleted holds exactly when completedModules equals
totalModules and totalModules is positive. -/
theorem updateLectureProgress_isCompleted_iff (p : Progress) (hp : Reachable p)
    (lid : Nat) (w : Option Nat) (ic : Option Bool) (now : Nat) (p' : Progress)
    (h : updateLectureProgress p lid w ic now = (none, p')) :
    p'.isCompleted = true
      ↔ (p'.completedModules = p'.totalModules ∧ 0 < p'.totalModules) := by
  cases hm : updateModulesList lid w ic now p.modules with
  | none =>
    rw [updateLectureProgress, hm] at h
    simp at h
  | some ms' =>
    rw [updateLectureProgress, hm] at h
    simp only [Prod.mk.injEq, true_and] at h
    have hmods : p.modules ≠ [] := by
      intro hnil
      rw [hnil] at hm
      exact Option.noConfusion hm
    have htm : 0 < p.totalModules := by
      rw [reachable_totalModules hp]
      cases hl : p.modules with
      | nil => exact absurd hl hmods
      | cons a l => simp
    rw [← h]
    simp only [beq_iff_eq]
    constructor
    · intro hc; exact ⟨hc, htm⟩
    · intro hc; exact hc.1

/-- Witness for C3 on the concrete fixture: the state after completing
lecture 102 of the fresh snapshot satisfies the biconditional. -/
theorem updateLectureProgress_isCompleted_iff_witness :
    lmsP1.isCompleted = true
      ↔ (lmsP1.completedModules = lmsP1.totalModules ∧ 0 < lmsP1.totalModules) :=
  updateLectureProgress_isCompleted_iff lmsP0
    (Reachable.init 7 10 lmsModules lmsLectures 0) 102 none (some true) 1 lmsP1
    (by decide)

/-- C4: after every successful updateLectureProgress call the stored
progressPercentage is the half-up rounding of
completedLectures / totalLectures * 100, and it is 0 when totalLectures
is 0. -/
theorem updateLectureProgress_percentage (p : Progress) (lid : Nat)
    (w : Option Nat) (ic : Option Bool) (now : Nat) (p' : Progress)
    (h : updateLectureProgress p lid w ic now = (none, p')) :
    (p'.totalLectures = 0 → p'.progressPercentage = 0) ∧
    (0 < p'.totalLectures →
      (p'.progressPercentage : ℤ)
        = ⌊(p'.completedLectures : ℚ) / (p'.totalLectures : ℚ) * 100 + 1 / 2⌋) := by
  cases hm : updateModulesList lid w ic now p.modules with
  | none =>
    rw [updateLectureProgress, hm] at h
    simp at h
  | some ms' =>
    rw [updateLectureProgress, hm] at h
    simp only [Prod.mk.injEq, true_and] at h
    rw [← h]
    dsimp only
    constructor
    · intro h0
      simp [h0]
    · intro hpos
      rw [if_pos hpos]
      exact jsRoundPct_eq_floor _ _ hpos

/-- Witness for C4 on the concrete fixture: one of two lectures completed
gives a stored percentage of 50, which is the rounded value. -/
theorem updateLectureProgress_percentage_witness :
    0 < lmsP1.totalLectures ∧
    (lmsP1.progressPercentage : ℤ)
      = ⌊(lmsP1.completedLectures : ℚ) / (lmsP1.totalLectures : ℚ) * 100 + 1 / 2⌋ :=
  ⟨by decide,
   (updateLectureProgress_percentage lmsP0 102 none (some true) 1 lmsP1
     (by decide)).2 (by decide)⟩

/-- Counterexample to C5 as stated. In the fresh snapshot the flattened
order is lecture 101 then lecture 102, the next-unlocked lecture is 101,
and lecture 102 is incomplete; the claim therefore prescribes the value
false (the queried lecture's own isCompleted flag, since 102 occurs after
101), but isLectureUnlocked returns true. -/
theorem isLectureUnlocked_claim_counterexample :
    getNextUnlockedLecture lmsP0 = some 101 ∧
    (flatLectures lmsP0).map (fun l => l.lectureId) = [101, 102] ∧
    ((flatLectures lmsP0).find? (fun l => l.lectureId == 102)).map
      (fun l => l.isCompleted) = some false ∧
    isLectureUnlocked lmsP0 102 = true := by
  decide

/-- C5 amended: isLectureUnlocked returns true when getNextUnlockedLecture
returns none; otherwise, within the module containing the queried lecture
(at module-local index i), it returns true when the next-unlocked lecture
occurs among that module's lectures at a position at or before i, and
the queried lecture's own isCompleted flag otherwise; it returns false
when the queried id is absent from the snapshot. The comparison is
module-local and checks whether the next-unlocked lecture is at or before
the queried one, not the flattened-order comparison of the original
claim. -/
theorem isLectureUnlocked_eq_spec (p : Progress) (lid : Nat) :
    isLectureUnlocked p lid = isLectureUnlockedSpec p lid := by
  rw [isLectureUnlocked, isLectureUnlockedSpec]
  cases getNextUnlockedLecture p with
  | none => rfl
  | some nu => exact unlockedInModules_eq_spec lid nu p.modules

/-- Counterexample to C1 as stated: the state lmsP1, in which lecture 102
is completed while the preceding lecture 101 is not, is reachable from
an initializeForCourse snapshot by a single UpdateLectureProgress call. -/
theorem sequential_unlock_counterexample :
    Reachable lmsP1 ∧ seqCompletedOk (flatLectures lmsP1) = false :=
  ⟨Reachable.step 102 none (some true) 1
      (Reachable.init 7 10 lmsModules lmsLectures 0) (by decide),
   by decide⟩

/-- C1 amended: updateLectureProgress enforces no sequential unlocking.
Whenever the target lecture id is present in the snapshot, the call
succeeds and marks that lecture completed, irrespective of whether the
lectures ordered before it are completed; consequently states in which a
completed lecture is preceded by an incomplete one are reachable. -/
theorem updateLectureProgress_no_gating (p : Progress) (lid : Nat)
    (w : Option Nat) (now : Nat)
    (h : ∃ l ∈ flatLectures p, l.lectureId = lid) :
    ∃ p', updateLectureProgress p lid w (some true) now = (none, p') ∧
      (flatLectures p').any (fun l => l.lectureId == lid && l.isCompleted) = true := by
  rw [flatLectures] at h
  obtain ⟨l, hl, hle⟩ := h
  rw [List.mem_flatMap] at hl
  obtain ⟨m, hmm, hlm⟩ := hl
  obtain ⟨ms', hms, hmark⟩ :=
    updateModulesList_marks lid w now p.modules ⟨m, hmm, l, hlm, hle⟩
  refine ⟨(updateLectureProgress p lid w (some true) now).2, ?_, ?_⟩
  · have hfst : (updateLectureProgress p lid w (some true) now).1 = none := by
      rw [updateLectureProgress, hms]
    exact Prod.ext hfst rfl
  · have hsnd : (updateLectureProgress p lid w (some true) now).2.modules = ms' := by
      rw [updateLectureProgress, hms]
    rw [flatLectures, hsnd]
    exact hmark

/-- Witness for the amended C1 on the concrete fixture: lecture 102 can be
marked completed directly on the fresh snapshot. -/
theorem updateLectureProgress_no_gating_witness :
    ∃ p', updateLectureProgress lmsP0 102 none (some true) 3 = (none, p') ∧
      (flatLectures p').any (fun l => l.lectureId == 102 && l.isCompleted) = true :=
  updateLectureProgress_no_gating lmsP0 102 none 3 (by decide)

/-- C9: both recompute operations are idempotent. A second
calculateLectureStats (respectively calculateStats) call with no
intervening content mutation returns the same lectureCount/totalDuration
(respectively totalModules/totalLectures/totalDuration) and leaves the
stored counters in the same state. -/
theorem recomputeStats_idempotent (s : Store) (m : ModuleDoc) (c : CourseDoc) :
    calculateLectureStats (calculateLectureStats s m).2 m = calculateLectureStats s m
    ∧ calculateStats (calculateStats s c).2 c = calculateStats s c := by
  constructor
  · obtain ⟨cs, ms, ls⟩ := s
    simp only [calculateLectureStats, applyModuleStats, applyCourseStats,
      moduleStats, courseStats]
    rw [mapIdem, mapIdem]
    · intro x
      by_cases h : x.id = m.courseId <;> simp [h]
    · intro x
      by_cases h : x.id = m.id <;> simp [h]
  · obtain ⟨cs, ms, ls⟩ := s
    simp only [calculateStats, applyCourseStats, courseStats]
    rw [mapIdem]
    intro x
    by_cases h : x.id = c.id <;> simp [h]

/-- C7: the reorder endpoint fails with a validation error and an
unchanged store both when the id list is empty (rejected by the
controller guard) and when the course exists but some id in the list is
not a module of that course (rejected by the service count check before
any update). The Nodup hypothesis states that stored module ids are
distinct, which the store's unique _id guarantees. -/
theorem reorderModules_validation (s : Store) (cid : Nat) (mids : List Nat)
    (hnd : (s.modules.map (fun m => m.id)).Nodup) :
    (mids = [] →
      reorderModulesEndpoint s cid mids = (.error .emptyModuleIds, s)
      ∧ SvcError.isValidationError .emptyModuleIds = true) ∧
    ((∃ c ∈ s.courses, c.id = cid) →
     (∃ mid ∈ mids, ∀ m ∈ s.modules, ¬(m.id = mid ∧ m.courseId = cid)) →
      reorderModulesEndpoint s cid mids = (.error .modulesNotInCourse, s)
      ∧ SvcError.isValidationError .modulesNotInCourse = true) := by
  constructor
  · rintro rfl
    exact ⟨rfl, rfl⟩
  · rintro ⟨c, hc, hcid⟩ ⟨mid, hmid, hforeign⟩
    refine ⟨?_, rfl⟩
    have hne : mids ≠ [] := List.ne_nil_of_mem hmid
    have hempty : mids.isEmpty = false := List.isEmpty_eq_false.mpr hne
    obtain ⟨c', hc'⟩ : ∃ c', s.courses.find? (fun c => c.id == cid) = some c' :=
      Option.isSome_iff_exists.mp (List.find?_isSome.mpr ⟨c, hc, by simp [hcid]⟩)
    have hlen : (s.modules.filter (fun m =>
        mids.contains m.id && m.courseId == cid)).length ≠ mids.length := by
      set matching := s.modules.filter (fun m =>
        mids.contains m.id && m.courseId == cid) with hmatch
      have hsubl : (matching.map (fun m => m.id)).Sublist (s.modules.map (fun m => m.id)) :=
        List.Sublist.map (fun m => m.id) (List.filter_sublist s.modules)
      have hidsnd : (matching.map (fun m => m.id)).Nodup := List.Nodup.sublist hsubl hnd
      have hsubset : ∀ a ∈ matching.map (fun m => m.id), a ∈ mids ∧ a ≠ mid := by
        intro a ha
        rw [List.mem_map] at ha
        obtain ⟨mm, hmm, rfl⟩ := ha
        rw [hmatch, List.mem_filter] at hmm
        obtain ⟨hmem, hpred⟩ := hmm
        rw [Bool.and_eq_true] at hpred
        refine ⟨List.elem_iff.mp hpred.1, ?_⟩
        intro heq
        exact hforeign mm hmem ⟨heq, by simpa [beq_iff_eq] using hpred.2⟩
      have h1 : matching.length = (matching.map (fun m => m.id)).length :=
        (List.length_map _ _).symm
      have h2 : (matching.map (fun m => m.id)).length
          = (matching.map (fun m => m.id)).toFinset.card :=
        (List.toFinset_card_of_nodup hidsnd).symm
      have h3 : (matching.map (fun m => m.id)).toFinset ⊆ mids.toFinset.erase mid := by
        intro a ha
        rw [List.mem_toFinset] at ha
        obtain ⟨hin, hne'⟩ := hsubset a ha
        exact Finset.mem_erase.mpr ⟨hne', List.mem_toFinset.mpr hin⟩
      have h4 := Finset.card_le_card h3
      have h5 : (mids.toFinset.erase mid).card = mids.toFinset.card - 1 :=
        Finset.card_erase_of_mem (List.mem_toFinset.mpr hmid)
      have h6 : mids.toFinset.card ≤ mids.length := List.toFinset_card_le mids
      have h7 : 0 < mids.toFinset.card :=
        Finset.card_pos.mpr ⟨mid, List.mem_toFinset.mpr hmid⟩
      omega
    rw [reorderModulesEndpoint]
    rw [hempty]
    simp only [Bool.false_eq_true, if_false]
    rw [reorderModules, hc']
    simp only [if_neg hlen]

/-- Witness for C7 on the concrete store: the empty list and a foreign id
are both rejected with the store unchanged. -/
theorem reorderModules_validation_witness :
    reorderModulesEndpoint exStore 10 [] = (.error .emptyModuleIds, exStore) ∧
    reorderModulesEndpoint exStore 10 [99] = (.error .modulesNotInCourse, exStore) :=
  ⟨((reorderModules_validation exStore 10 [] (by decide)).1 rfl).1,
   ((reorderModules_validation exStore 10 [99] (by decide)).2
     (by decide) (by decide)).1⟩

/-- C2: for every course and every successful ReorderModules call, the
multiset of moduleNumber values over the course's modules after the call
is exactly {1..N}. A renumbering step colliding with another module of
the course is rejected by the unique (courseId, moduleNumber) index, so
a call that returns ok has given the listed modules the numbers 1..k
while every unlisted module of the course already sat above k; with the
data-model invariants as hypotheses (distinct stored module ids, gapless
pre-state numbering 1..N) the post-state numbers are a permutation of
1..N. -/
theorem reorderModules_gapless (s : Store) (cid : Nat) (mids : List Nat)
    (ms : List ModuleDoc) (s' : Store)
    (hnd : (s.modules.map (fun m => m.id)).Nodup)
    (hgap : ((s.modules.filter (fun m => m.courseId == cid)).map
        (fun m => m.moduleNumber)).Perm
      (List.range' 1 (s.modules.filter (fun m => m.courseId == cid)).length))
    (hcall : reorderModulesEndpoint s cid mids = (.ok ms, s')) :
    ((s'.modules.filter (fun m => m.courseId == cid)).map
        (fun m => m.moduleNumber)).Perm
      (List.range' 1 (s'.modules.filter (fun m => m.courseId == cid)).length) := by
  obtain ⟨hlen, hloop⟩ := reorderEndpoint_ok_elim s cid mids ms s' hcall
  have hsubl : ((s.modules.filter (fun m =>
      mids.contains m.id && m.courseId == cid)).map (fun m => m.id)).Sublist
      (s.modules.map (fun m => m.id)) :=
    List.Sublist.map _ (List.filter_sublist _)
  have hmnodup : ((s.modules.filter (fun m =>
      mids.contains m.id && m.courseId == cid)).map (fun m => m.id)).Nodup :=
    List.Nodup.sublist hsubl hnd
  have hmsub : ∀ a ∈ (s.modules.filter (fun m =>
      mids.contains m.id && m.courseId == cid)).map (fun m => m.id), a ∈ mids := by
    intro a ha
    rw [List.mem_map] at ha
    obtain ⟨m, hm, rfl⟩ := ha
    rw [List.mem_filter, Bool.and_eq_true] at hm
    exact List.elem_iff.mp hm.2.1
  have hperm_ids : ((s.modules.filter (fun m =>
      mids.contains m.id && m.courseId == cid)).map (fun m => m.id)).Perm mids :=
    (List.subperm_of_subset hmnodup hmsub).perm_of_length_le
      (by rw [List.length_map, hlen])
  have hmids_nd : mids.Nodup := hperm_ids.nodup_iff.mp hmnodup
  have hex : ∀ mid ∈ mids, ∃ m ∈ s.modules, m.id = mid ∧ m.courseId = cid := by
    intro mid hmid
    have hmem : mid ∈ (s.modules.filter (fun m =>
        mids.contains m.id && m.courseId == cid)).map (fun m => m.id) :=
      hperm_ids.mem_iff.mpr hmid
    rw [List.mem_map] at hmem
    obtain ⟨m, hm, rfl⟩ := hmem
    rw [List.mem_filter, Bool.and_eq_true] at hm
    exact ⟨m, hm.1, rfl, by simpa [beq_iff_eq] using hm.2.2⟩
  obtain ⟨hmods, hnocol⟩ := reorderLoop_ok cid mids s 0 ms s' hmids_nd hnd hex hloop
  rw [hmods, List.filter_map]
  have hfilter : s.modules.filter ((fun m => m.courseId == cid) ∘ (fun m =>
      if mids.contains m.id then
        { m with moduleNumber := 0 + mids.indexOf m.id + 1 }
      else m)) = s.modules.filter (fun m => m.courseId == cid) := by
    apply List.filter_congr
    intro m _
    by_cases h : m.id ∈ mids <;> simp [Function.comp, contains_eq_mem, h]
  rw [hfilter, List.map_map, List.length_map]
  have hLeq : (s.modules.filter (fun m => m.courseId == cid)).filter
      (fun m => mids.contains m.id)
      = s.modules.filter (fun m => mids.contains m.id && m.courseId == cid) :=
    List.filter_filter _ _
  have hpart := List.filter_append_perm (fun m => mids.contains m.id)
    (s.modules.filter (fun m => m.courseId == cid))
  have hLnum : ((s.modules.filter (fun m => m.courseId == cid)).filter
      (fun m => mids.contains m.id)).map ((fun m => m.moduleNumber) ∘ (fun m =>
        if mids.contains m.id then
          { m with moduleNumber := 0 + mids.indexOf m.id + 1 }
        else m))
      = (((s.modules.filter (fun m => m.courseId == cid)).filter
          (fun m => mids.contains m.id)).map (fun m => m.id)).map
        (fun i => mids.indexOf i + 1) := by
    rw [List.map_map]
    apply List.map_congr_left
    intro m hm
    have hc : mids.contains m.id = true := (List.mem_filter.mp hm).2
    have hmem : m.id ∈ mids := List.elem_iff.mp hc
    simp [Function.comp, contains_eq_mem, hmem]
  have hstep2 : mids.map (fun i => mids.indexOf i + 1) = List.range' 1 mids.length := by
    have h2 : mids.map (fun i => mids.indexOf i + 1)
        = (mids.map (fun i => mids.indexOf i)).map (fun n => n + 1) := by
      rw [List.map_map]; rfl
    rw [h2, indexOf_map_self mids hmids_nd, map_add_one_range]
  have hLperm : (((s.modules.filter (fun m => m.courseId == cid)).filter
      (fun m => mids.contains m.id)).map ((fun m => m.moduleNumber) ∘ (fun m =>
        if mids.contains m.id then
          { m with moduleNumber := 0 + mids.indexOf m.id + 1 }
        else m))).Perm (List.range' 1 mids.length) := by
    rw [hLnum, hLeq, ← hstep2]
    exact hperm_ids.map _
  have hUnum : ((s.modules.filter (fun m => m.courseId == cid)).filter
      (fun m => !(mids.contains m.id))).map ((fun m => m.moduleNumber) ∘ (fun m =>
        if mids.contains m.id then
          { m with moduleNumber := 0 + mids.indexOf m.id + 1 }
        else m))
      = ((s.modules.filter (fun m => m.courseId == cid)).filter
          (fun m => !(mids.contains m.id))).map (fun m => m.moduleNumber) := by
    apply List.map_congr_left
    intro m hm
    have hc := (List.mem_filter.mp hm).2
    rw [Bool.not_eq_true'] at hc
    have hnmem : m.id ∉ mids := by
      intro h
      rw [contains_eq_mem] at hc
      simp [h] at hc
    simp [Function.comp, contains_eq_mem, hnmem]
  have hCnd : ((s.modules.filter (fun m => m.courseId == cid)).map
      (fun m => m.moduleNumber)).Nodup :=
    hgap.nodup_iff.mpr (List.nodup_range' _ _)
  have hUnd : (((s.modules.filter (fun m => m.courseId == cid)).filter
      (fun m => !(mids.contains m.id))).map (fun m => m.moduleNumber)).Nodup :=
    List.Nodup.sublist (List.Sublist.map _ (List.filter_sublist _)) hCnd
  have hLlen : ((s.modules.filter (fun m => m.courseId == cid)).filter
      (fun m => mids.contains m.id)).length = mids.length := by
    rw [hLeq]; exact hlen
  have hkN : mids.length ≤ (s.modules.filter (fun m => m.courseId == cid)).length := by
    rw [← hLlen]
    exact List.length_filter_le _ _
  have hULen : ((s.modules.filter (fun m => m.courseId == cid)).filter
      (fun m => !(mids.contains m.id))).length
      = (s.modules.filter (fun m => m.courseId == cid)).length - mids.length := by
    have hl := hpart.length_eq
    rw [List.length_append, hLlen] at hl
    omega
  have hUsub : ∀ x ∈ ((s.modules.filter (fun m => m.courseId == cid)).filter
      (fun m => !(mids.contains m.id))).map (fun m => m.moduleNumber),
      x ∈ List.range' (mids.length + 1)
        ((s.modules.filter (fun m => m.courseId == cid)).length - mids.length) := by
    intro x hx
    rw [List.mem_map] at hx
    obtain ⟨u, hu, rfl⟩ := hx
    rw [List.mem_filter] at hu
    obtain ⟨huC, hucont⟩ := hu
    rw [Bool.not_eq_true'] at hucont
    have hunotin : u.id ∉ mids := by
      intro h
      rw [contains_eq_mem] at hucont
      simp [h] at hucont
    have huCmem := huC
    rw [List.mem_filter] at huCmem
    have hucid : u.courseId = cid := by simpa [beq_iff_eq] using huCmem.2
    have hnc := hnocol u huCmem.1 hunotin hucid
    have hxmem : u.moduleNumber ∈ (s.modules.filter
        (fun m => m.courseId == cid)).map (fun m => m.moduleNumber) :=
      List.mem_map.mpr ⟨u, huC, rfl⟩
    have hxrange := hgap.mem_iff.mp hxmem
    rw [List.mem_range'_1] at hxrange ⊢
    simp only [Nat.zero_add] at hnc
    omega
  have hUperm : (((s.modules.filter (fun m => m.courseId == cid)).filter
      (fun m => !(mids.contains m.id))).map (fun m => m.moduleNumber)).Perm
      (List.range' (mids.length + 1)
        ((s.modules.filter (fun m => m.courseId == cid)).length - mids.length)) :=
    (List.subperm_of_subset hUnd hUsub).perm_of_length_le
      (by rw [List.length_range', List.length_map, hULen])
  have hranges : List.range' 1 mids.length
      ++ List.range' (mids.length + 1)
        ((s.modules.filter (fun m => m.courseId == cid)).length - mids.length)
      = List.range' 1 (s.modules.filter (fun m => m.courseId == cid)).length := by
    have h := List.range'_append 1 mids.length
      ((s.modules.filter (fun m => m.courseId == cid)).length - mids.length) 1
    have e1 : 1 + 1 * mids.length = mids.length + 1 := by omega
    have e2 : (s.modules.filter (fun m => m.courseId == cid)).length - mids.length
        + mids.length = (s.modules.filter (fun m => m.courseId == cid)).length := by
      omega
    rw [e1, e2] at h
    exact h
  refine List.Perm.trans ((hpart.map _).symm) ?_
  rw [List.map_append, hUnum]
  refine List.Perm.trans (hLperm.append hUperm) ?_
  rw [hranges]

/-- Witness for C2: the identity reorder of the two-module course of
exStore succeeds under the index and leaves the numbers {1, 2}. -/
theorem reorderModules_gapless_witness :
    ((exStore.modules.filter (fun m => m.courseId == 10)).map
        (fun m => m.moduleNumber)).Perm
      (List.range' 1 (exStore.modules.filter (fun m => m.courseId == 10)).length) :=
  reorderModules_gapless exStore 10 [1, 2] exReorderOkMs exStore
    (by decide) (by decide) rfl

/-- Counterexample to C8 as stated: the source module of dupStore has no
active lecture at all, yet the duplicate module receives one copied
lecture (the inactive one) — duplicateModule copies every lecture of the
source module, not only the active ones, because its lecture query
carries no isActive filter. -/
theorem duplicateModule_active_counterexample :
    (dupStore.lectures.filter (fun l => l.moduleId == 1 && l.isActive)).length = 0 ∧
    ((duplicateModule dupStore 1 2 100).2.lectures.filter
      (fun l => l.moduleId == 2)).map (fun l => l.isActive) = [false] := by
  exact ⟨by decide, by decide⟩

/-- C8 amended: duplicateModule creates the new module in the same course
with the " (Copy)" title suffix at moduleNumber one past the course
maximum, and copies every lecture of the source module — active and
inactive alike — preserving title, videoUrl, duration, isActive, and
(because the save hook renumbers copies 1..k in order while the source
numbers are the gapless 1..k) the lectureNumber of each original. The
freshness hypothesis says the minted module id is unused by stored
lectures; the numbering hypothesis is the gapless-numbering invariant on
the source module. -/
theorem duplicateModule_copies (s : Store) (mid newId base : Nat) (orig : ModuleDoc)
    (hfind : s.modules.find? (fun m => m.id == mid) = some orig)
    (hfresh : ∀ l ∈ s.lectures, l.moduleId ≠ newId)
    (hnums : (s.lectures.filter (fun l => l.moduleId == mid)).map
        (fun l => l.lectureNumber)
      = List.range' 1 (s.lectures.filter (fun l => l.moduleId == mid)).length) :
    (duplicateModule s mid newId base).1 = .ok (dupNewModule s orig newId) ∧
    (dupNewModule s orig newId).courseId = orig.courseId ∧
    (dupNewModule s orig newId).title = orig.title ++ " (Copy)" ∧
    (∀ m ∈ s.modules, m.courseId = orig.courseId →
      m.moduleNumber < (dupNewModule s orig newId).moduleNumber) ∧
    (∃ m ∈ s.modules, m.courseId = orig.courseId ∧
      (dupNewModule s orig newId).moduleNumber = m.moduleNumber + 1) ∧
    ((duplicateModule s mid newId base).2.lectures.filter
        (fun l => l.moduleId == newId)).map lecProj
      = (s.lectures.filter (fun l => l.moduleId == mid)).map lecProj := by
  have heq := duplicateModule_eq s mid newId base orig hfind
  refine ⟨by rw [heq], rfl, rfl, ?_, ?_, ?_⟩
  · intro m hm hc
    have hmem : m.moduleNumber ∈ (s.modules.filter
        (fun m => m.courseId == orig.courseId)).map (fun m => m.moduleNumber) :=
      List.mem_map.mpr ⟨m, List.mem_filter.mpr ⟨hm, by simp [hc]⟩, rfl⟩
    have hle := le_foldrMax _ _ hmem
    show m.moduleNumber < ((s.modules.filter
        (fun m => m.courseId == orig.courseId)).map
          (fun m => m.moduleNumber)).foldr max 0 + 1
    omega
  · have hormem : orig ∈ s.modules := List.mem_of_find?_eq_some hfind
    have horfil : orig ∈ s.modules.filter (fun m => m.courseId == orig.courseId) :=
      List.mem_filter.mpr ⟨hormem, by simp⟩
    have hne : (s.modules.filter (fun m => m.courseId == orig.courseId)).map
        (fun m => m.moduleNumber) ≠ [] :=
      List.ne_nil_of_mem (List.mem_map.mpr ⟨orig, horfil, rfl⟩)
    have hmax := foldrMax_mem _ hne
    obtain ⟨m, hmfil, hmn⟩ := List.mem_map.mp hmax
    obtain ⟨hmmem, hmc⟩ := List.mem_filter.mp hmfil
    refine ⟨m, hmmem, by simpa [beq_iff_eq] using hmc, ?_⟩
    show ((s.modules.filter (fun m => m.courseId == orig.courseId)).map
        (fun m => m.moduleNumber)).foldr max 0 + 1 = m.moduleNumber + 1
    rw [hmn]
  · rw [heq]
    have hmidlec : (dupMid s orig newId).lectures = s.lectures := rfl
    have hfe : (dupMid s orig newId).lectures.filter (fun l => l.moduleId == newId)
        = [] := by
      rw [hmidlec]
      exact List.filter_eq_nil_iff.mpr (fun l hl => by simp [hfresh l hl])
    have h1 : ((dupMid s orig newId).lectures.filter
        (fun l => l.moduleId == newId)).map (fun l => l.lectureNumber)
        = List.range' 1 0 := by
      rw [hfe]; rfl
    have h2 : ((dupMid s orig newId).lectures.filter
        (fun l => l.moduleId == mid)).map (fun l => l.lectureNumber)
        = List.range' (0 + 1) ((dupMid s orig newId).lectures.filter
            (fun l => l.moduleId == mid)).length := by
      rw [hmidlec]
      exact hnums
    have hfold := dupFold newId orig.courseId
      ((dupMid s orig newId).lectures.filter (fun l => l.moduleId == mid))
      (dupMid s orig newId) base 0 h1 h2
    show (((((dupMid s orig newId).lectures.filter
          (fun l => l.moduleId == mid)).foldl
        (saveDuplicatedLecture newId orig.courseId)
        (dupMid s orig newId, base)).1.lectures.filter
          (fun l => l.moduleId == newId)).map lecProj)
      = (s.lectures.filter (fun l => l.moduleId == mid)).map lecProj
    rw [hfold, hfe]
    rw [hmidlec]
    simp

/-- Witness for the amended C8: duplicating the module of dupStore2 (two
active lectures numbered 1 and 2) yields a same-course copy titled
"M (Copy)" at moduleNumber 4 whose two lectures match the originals,
numbers included. -/
theorem duplicateModule_copies_witness :
    (duplicateModule dupStore2 1 2 100).1 = .ok (dupNewModule dupStore2 dupOrig 2) ∧
    (dupNewModule dupStore2 dupOrig 2).courseId = dupOrig.courseId ∧
    (dupNewModule dupStore2 dupOrig 2).title = dupOrig.title ++ " (Copy)" ∧
    (∀ m ∈ dupStore2.modules, m.courseId = dupOrig.courseId →
      m.moduleNumber < (dupNewModule dupStore2 dupOrig 2).moduleNumber) ∧
    (∃ m ∈ dupStore2.modules, m.courseId = dupOrig.courseId ∧
      (dupNewModule dupStore2 dupOrig 2).moduleNumber = m.moduleNumber + 1) ∧
    ((duplicateModule dupStore2 1 2 100).2.lectures.filter
        (fun l => l.moduleId == 2)).map lecProj
      = (dupStore2.lectures.filter (fun l => l.moduleId == 1)).map lecProj :=
  duplicateModule_copies dupStore2 1 2 100 dupOrig (by decide) (by decide) (by decide)

end Lms
